import Mathlib

/-!
Shallow embedding of the Bayesian color-constancy notebook
(notebooks/bayesian_color_constancy.ipynb).

Conventions used throughout:
* As in the notebook, NUM_COLORS = 3 and MODEL_DIMENSIONS = 2, so reflectance
  coefficient vectors live in Fin 6 → ℚ (6 = NUM_COLORS * MODEL_DIMENSIONS),
  spectrum vectors in Fin 2 → ℚ, and pixel colors in Fin 3 → ℚ.
* numpy's fallible matrix inversion (np.linalg.inv raises LinAlgError on a
  singular matrix) is embedded as the Option-valued npInv, and exact division
  by a scalar that may be zero as the Option-valued scalarDivMat / the guarded
  branch of log_N_singledim.
* Code that manipulates real numbers through math.log / math.sqrt is embedded
  over ℝ; the purely algebraic estimator code is embedded over ℚ so that it
  can be evaluated on concrete inputs.
-/

open Matrix

abbrev V2 : Type := Fin 2 → ℚ
abbrev V3 : Type := Fin 3 → ℚ
abbrev V6 : Type := Fin 6 → ℚ
abbrev M33 : Type := Matrix (Fin 3) (Fin 3) ℚ
abbrev M66 : Type := Matrix (Fin 6) (Fin 6) ℚ
abbrev M63 : Type := Matrix (Fin 6) (Fin 3) ℚ
abbrev M23 : Type := Matrix (Fin 2) (Fin 3) ℚ
abbrev M22 : Type := Matrix (Fin 2) (Fin 2) ℚ

/-- Determinant of a 2 × 2 rational matrix, written out so that it evaluates
by kernel reduction; equal to Matrix.det. -/
def det2 (A : M22) : ℚ :=
  A 0 0 * A 1 1 - A 0 1 * A 1 0

/-- Adjugate of a 2 × 2 rational matrix, written out explicitly; equal to
Matrix.adjugate. -/
def adj2 (A : M22) : M22 :=
  !![A 1 1, -A 0 1; -A 1 0, A 0 0]

/-- Matrix inverse of a 2 × 2 rational matrix by the adjugate formula;
coincides with Mathlib's nonsingular inverse. -/
def minv2 (A : M22) : M22 :=
  (det2 A)⁻¹ • adj2 A

/-- np.linalg.inv on a 2 × 2 matrix: fails (LinAlgError) on a singular one. -/
def npInv2 (A : M22) : Option M22 :=
  if det2 A = 0 then none else some (minv2 A)

/-- Determinant of a 3 × 3 rational matrix, written out so that it evaluates
by kernel reduction; equal to Matrix.det. -/
def det3 (A : M33) : ℚ :=
  A 0 0 * A 1 1 * A 2 2 - A 0 0 * A 1 2 * A 2 1
    - A 0 1 * A 1 0 * A 2 2 + A 0 1 * A 1 2 * A 2 0
    + A 0 2 * A 1 0 * A 2 1 - A 0 2 * A 1 1 * A 2 0

/-- Adjugate of a 3 × 3 rational matrix, written out explicitly; equal to
Matrix.adjugate. -/
def adj3 (A : M33) : M33 :=
  !![A 1 1 * A 2 2 - A 1 2 * A 2 1,
    -(A 0 1 * A 2 2) + A 0 2 * A 2 1,
    A 0 1 * A 1 2 - A 0 2 * A 1 1;
    -(A 1 0 * A 2 2) + A 1 2 * A 2 0,
    A 0 0 * A 2 2 - A 0 2 * A 2 0,
    -(A 0 0 * A 1 2) + A 0 2 * A 1 0;
    A 1 0 * A 2 1 - A 1 1 * A 2 0,
    -(A 0 0 * A 2 1) + A 0 1 * A 2 0,
    A 0 0 * A 1 1 - A 0 1 * A 1 0]

/-- Matrix inverse of a 3 × 3 rational matrix by the adjugate formula;
coincides with Mathlib's nonsingular inverse. -/
def minv3 (A : M33) : M33 :=
  (det3 A)⁻¹ • adj3 A

/-- np.linalg.inv on a 3 × 3 matrix: fails (LinAlgError) on a singular one. -/
def npInv3 (A : M33) : Option M33 :=
  if det3 A = 0 then none else some (minv3 A)

/-- Exact-arithmetic embedding of elementwise division of a matrix by a
scalar (sigma_p / g ** 2 in update_sigma): undefined for a zero divisor. -/
def scalarDivMat (A : M33) (x : ℚ) : Option M33 :=
  if x = 0 then none else some (x⁻¹ • A)

/-- The padding of the spectrum vector beta into the 6 × 3 block operator
built in the main loop: beta_matrix[i*MODEL_DIMENSIONS:(i+1)*MODEL_DIMENSIONS, i] = beta. -/
def expandBeta (beta : V2) : M63 :=
  Matrix.of fun r c =>
    if (r : ℕ) / 2 = (c : ℕ) then beta ⟨(r : ℕ) % 2, Nat.mod_lt _ (by norm_num)⟩ else 0

/-- pixel_sigma[pi, hi].reshape((MODEL_DIMENSIONS, NUM_COLORS)): the row-major
reshape of a reflectance vector used by calc_log_likelihoods and update_betas. -/
def reshapeS (sigma : V6) : M23 :=
  Matrix.of fun m c => sigma ⟨3 * (m : ℕ) + (c : ℕ), by omega⟩

/-- update_sigma from the notebook:
K3 = inv(sigma_p / g ** 2 + beta.T @ Sigma_o @ beta),
K2 = g * Sigma_o @ beta @ (eye(3) - K3 @ beta.T @ Sigma_o @ beta),
K1 = eye(6) - Sigma_o @ beta @ K3 @ beta.T,
result K1 @ mu_o + K2 @ inv(sigma_p) @ pixel. -/
def update_sigma (sigma_p : M33) (g : ℚ) (beta : M63) (Sigma_o : M66) (mu_o : V6)
    (pixel : V3) : Option V6 := do
  let q ← scalarDivMat sigma_p (g ^ 2)
  let K3 ← npInv3 (q + betaᵀ * Sigma_o * beta)
  let K2 := g • (Sigma_o * beta * ((1 : M33) - K3 * (betaᵀ * Sigma_o * beta)))
  let K1 := (1 : M66) - Sigma_o * beta * K3 * betaᵀ
  let sigma_p_inv ← npInv3 sigma_p
  pure (K1.mulVec mu_o + (K2 * sigma_p_inv).mulVec pixel)

/-- The Reflectance Estimator formula exactly as the specification states it
(sections 4.3 and the claim): K3 = (Σ_p / g² + BᵗΣ_oB)⁻¹,
K2 = g·Σ_oB·(I − K3·BᵗΣ_oB), K1 = I − Σ_oB·K3·Bᵗ, result K1·μ_o + K2·Σ_p⁻¹·p. -/
def specUpdateSigma (sigma_p : M33) (g : ℚ) (B : M63) (Sigma_o : M66) (mu_o : V6)
    (p : V3) : V6 :=
  let K3 := minv3 ((g ^ 2)⁻¹ • sigma_p + Bᵀ * Sigma_o * B)
  let K2 := g • (Sigma_o * B * ((1 : M33) - K3 * (Bᵀ * Sigma_o * B)))
  let K1 := (1 : M66) - Sigma_o * B * K3 * Bᵀ
  K1.mulVec mu_o + K2.mulVec ((minv3 sigma_p).mulVec p)

/-- One pixel voting for a light source in update_betas: its rank-0 hypothesis
reflectance (already reshaped to MODEL_DIMENSIONS × NUM_COLORS), illumination
and observed color. -/
structure Vote where
  S : M23
  g : ℚ
  pixel : V3
deriving DecidableEq

/-- The body of update_betas for one light source: accumulate
h += g² · S @ sigma_p @ S.T and b += g · S @ sigma_p @ pixel over the voting
pixels, add len(votes) · Sigma_beta_inv and len(votes) · Sigma_beta_inv @ mu_beta,
and solve inv(h) @ b. -/
def update_betas_w (sigma_p : M33) (mu_beta : V2) (Sigma_beta : M22)
    (votes : List Vote) : Option V2 := do
  let Sigma_beta_inv ← npInv2 Sigma_beta
  let h := (votes.map (fun v => (v.g ^ 2) • (v.S * sigma_p * v.Sᵀ))).sum
      + (votes.length : ℚ) • Sigma_beta_inv
  let b := (votes.map (fun v => v.g • (v.S * sigma_p : M23).mulVec v.pixel)).sum
      + (votes.length : ℚ) • Sigma_beta_inv.mulVec mu_beta
  let h_inv ← npInv2 h
  pure (h_inv.mulVec b)

/-- A per-pixel hypothesis: material index, light-source index, reflectance
coefficient vector and illumination estimate (the rows pixel_o, pixel_w,
pixel_sigma, pixel_g of the notebook's per-pixel arrays). -/
structure Hyp where
  o : ℕ
  w : ℕ
  sigma : V6
  g : ℚ
deriving DecidableEq

instance : Inhabited Hyp :=
  ⟨⟨0, 0, fun _ => 0, 0⟩⟩

/-- The body of update_hypothesises for one pixel: sort the hypothesis indices
by likelihood (Python's sorted: ascending, stable), drop the last one ([:-1]),
and re-index the per-pixel arrays by the remaining sorted indices. -/
def update_hypothesises_pixel (likelihoods : List ℚ) (hyps : List Hyp) : List Hyp :=
  let sorted_idx :=
    (List.insertionSort (fun i j => likelihoods.getD i 0 ≤ likelihoods.getD j 0)
      (List.range hyps.length)).dropLast
  sorted_idx.map (fun i => hyps.getD i default)

/-- List.map with the element index, used to model loops over enumerated
numpy rows. -/
def enumMap {α β : Type} (f : ℕ → α → β) : ℕ → List α → List β
  | _, [] => []
  | k, a :: as => f k a :: enumMap f (k + 1) as

/-- update_hypothesises over all pixels: likelihoods[pi, :] drives the pruning
of pixel pi independently of all other pixels. -/
def update_hypothesises (likelihoods : List (List ℚ)) (st : List (List Hyp)) :
    List (List Hyp) :=
  enumMap (fun pi hyps => update_hypothesises_pixel (likelihoods.getD pi []) hyps) 0 st

/-- The per-pixel, per-hypothesis refinement pass of one loop iteration
(update_sigma / update_g written back in place), abstracted over the concrete
update f of a single hypothesis: every hypothesis of every pixel is rewritten
individually, which is all the hypothesis-count invariant depends on. -/
def refine_pass (f : ℕ → ℕ → Hyp → Hyp) (st : List (List Hyp)) : List (List Hyp) :=
  enumMap (fun pi hyps => enumMap (fun hi h => f pi hi h) 0 hyps) 0 st

/-- The convergence loop: each iteration refines every hypothesis of every
pixel, computes likelihoods (calcL, abstract: it may depend on the iteration
number and the whole refined state) and prunes one hypothesis per pixel. -/
def convergence_loop (f : ℕ → ℕ → ℕ → Hyp → Hyp)
    (calcL : ℕ → List (List Hyp) → List (List ℚ)) (st0 : List (List Hyp)) :
    ℕ → List (List Hyp)
  | 0 => st0
  | i + 1 =>
    let st := refine_pass (f i) (convergence_loop f calcL st0 i)
    update_hypothesises (calcL i st) st

/-- Python's range(a, b, step) for step ≥ 1. -/
def pyRange (a b step : ℕ) : List ℕ :=
  List.range' a ((b - a + step - 1) / step) step

/-- flatten_indizes from the notebook:
[py * width + px for px in range(x_start, x_end) for py in range(y_start, y_end)]. -/
def flatten_indizes (x_start x_end y_start y_end width : ℕ) : List ℕ :=
  (List.range' x_start (x_end - x_start)).flatMap
    (fun px => (List.range' y_start (y_end - y_start)).map (fun py => py * width + px))

/-- The pixel indices one window collects in the main loop:
flatten_indizes(window_x, min(window_x + WINDOW_X_SIZE, img_width),
window_y, min(window_y + WINDOW_Y_SIZE, img_height), img_width). -/
def windowPixels (wx wy wxs wys imgW imgH : ℕ) : List ℕ :=
  flatten_indizes wx (min (wx + wxs) imgW) wy (min (wy + wys) imgH) imgW

/-- The Window Scheduler of the main loop: window_x runs over
range(rx0, rx1 + 1, WINDOW_X_SIZE - OVERLAPPING) in the outer loop and
window_y over range(ry0, ry1 + 1, WINDOW_X_SIZE - OVERLAPPING) in the inner
loop (the notebook uses the x window size for the y stride as well); each
visited window records its start and the pixel indices it collects. -/
def scheduleWindows (rx0 rx1 ry0 ry1 wxs wys ov imgW imgH : ℕ) :
    List (ℕ × ℕ × List ℕ) :=
  (pyRange rx0 (rx1 + 1) (wxs - ov)).flatMap
    (fun wx => (pyRange ry0 (ry1 + 1) (wxs - ov)).map
      (fun wy => (wx, wy, windowPixels wx wy wxs wys imgW imgH)))

/-- color_angle_distance: the squared Euclidean distance between two colors
(the notebook deliberately takes no square root). -/
noncomputable def color_angle_distance (c1 c2 : Fin 3 → ℝ) : ℝ :=
  ∑ i, (c1 i - c2 i) ^ 2

/-- color_metric: math.sqrt(color_angle_distance([0, 0, 0], color)). -/
noncomputable def color_metric (color : Fin 3 → ℝ) : ℝ :=
  Real.sqrt (color_angle_distance (fun _ => 0) color)

/-- The illumination seed of init_pixel_hypothesises:
pixel @ mean_color_chart[o, w] / color_metric(mean_color_chart[o, w]). -/
noncomputable def init_pixel_g (pixel mean_color : Fin 3 → ℝ) : ℝ :=
  (∑ i, pixel i * mean_color i) / color_metric mean_color

/-- The mean-color-chart entry for (LEAF, DIRECT_LIGHT). -/
noncomputable def meanColorLeafDirect : Fin 3 → ℝ :=
  ![92, 190, 120]

/-- np.mean of a list of reals. -/
noncomputable def list_mean (l : List ℝ) : ℝ :=
  l.sum / l.length

/-- np.std of a list of reals (population standard deviation). -/
noncomputable def list_std (l : List ℝ) : ℝ :=
  Real.sqrt ((l.map (fun x => (x - list_mean l) ^ 2)).sum / l.length)

/-- The g-values of the pixels whose best-hypothesis light source equals
light_source: [g[i] for i, w_hat in enumerate(w) if w_hat == light_source]. -/
def votes_for (w : List ℕ) (g : List ℝ) (light_source : ℕ) : List ℝ :=
  ((w.zip g).filter (fun p => p.1 == light_source)).map Prod.snd

/-- estimate_g_distriution, specialised to one light source: mean 0 and
standard deviation 1 unless some pixel votes for the light source, in which
case the mean and np.std of the voting g-values. -/
noncomputable def estimate_g_distriution_for (g : List ℝ) (w : List ℕ)
    (light_source : ℕ) : ℝ × ℝ :=
  let gw := votes_for w g light_source
  if gw.length = 0 then (0, 1) else (list_mean gw, list_std gw)

/-- log_N_singledim from the notebook:
-0.5 * log(2π) - 0.5 * std + (-0.5 * (1 / std) * (value - mu) ** 2), with
the exact-arithmetic division by std made explicit: undefined for std = 0. -/
noncomputable def log_N_singledim (value mu std : ℝ) : Option ℝ :=
  if std = 0 then none
  else some (-(1 / 2) * Real.log (2 * Real.pi) - (1 / 2) * std
    + -((1 / 2) * (1 / std) * (value - mu) ^ 2))

/-- The univariate Gaussian log-density formula the specification states for
the illumination-consistency term: −(1/2)ln(2π) − (1/2)ln σ² − (1/2)(x−μ)²/σ². -/
noncomputable def specGaussLogPdf1 (value mu std : ℝ) : ℝ :=
  -(1 / 2) * Real.log (2 * Real.pi) - (1 / 2) * Real.log (std ^ 2)
    - (1 / 2) * ((value - mu) ^ 2 / std ^ 2)

/-- Hypothesis labelled 0, used for concrete pruning runs. -/
def cH0 : Hyp :=
  ⟨0, 0, fun _ => 0, 0⟩

/-- Hypothesis labelled 1, used for concrete pruning runs. -/
def cH1 : Hyp :=
  ⟨1, 0, fun _ => 0, 0⟩

/-- Hypothesis labelled 2, used for concrete pruning runs. -/
def cH2 : Hyp :=
  ⟨2, 0, fun _ => 0, 0⟩

/-- A concrete 2-pixel initial state with 2 hypotheses per pixel. -/
def cSt0 : List (List Hyp) :=
  [[cH0, cH1], [cH0, cH1]]

/-- A concrete per-hypothesis refinement function (the identity). -/
def cF : ℕ → ℕ → ℕ → Hyp → Hyp :=
  fun _ _ _ h => h

/-- A concrete likelihood oracle: each hypothesis is scored by its g value. -/
def cCalcL : ℕ → List (List Hyp) → List (List ℚ) :=
  fun _ st => st.map (fun hyps => hyps.map Hyp.g)

/-- The reflectance coefficient vector with a 1 in coordinate 1. -/
def ce1 : V6 :=
  fun i => if i = 1 then 1 else 0

/-- A concrete spectrum vector. -/
def cbeta : V2 :=
  ![1, 0]

/-- A concrete pixel color. -/
def cp010 : V3 :=
  ![0, 1, 0]

/-- A concrete spectrum prior mean. -/
def cmu2 : V2 :=
  ![1, 2]

/-- Another concrete spectrum prior mean. -/
def cmu2b : V2 :=
  ![3, 4]

/-! ## Helper lemmas -/

theorem det3_eq (A : M33) : det3 A = A.det := by
  rw [Matrix.det_fin_three]
  rfl

theorem adj3_eq (A : M33) : adj3 A = A.adjugate := by
  rw [Matrix.adjugate_fin_three]
  rfl

theorem minv3_eq_inv (A : M33) : minv3 A = A⁻¹ := by
  unfold minv3
  rw [det3_eq, adj3_eq, Matrix.inv_def, Ring.inverse_eq_inv]

theorem minv3_mul {A : M33} (h : det3 A ≠ 0) : minv3 A * A = 1 := by
  rw [minv3_eq_inv]
  rw [det3_eq] at h
  exact Matrix.nonsing_inv_mul A (isUnit_iff_ne_zero.2 h)

theorem mul_minv3 {A : M33} (h : det3 A ≠ 0) : A * minv3 A = 1 := by
  rw [minv3_eq_inv]
  rw [det3_eq] at h
  exact Matrix.mul_nonsing_inv A (isUnit_iff_ne_zero.2 h)

theorem expandBeta_zero : expandBeta 0 = 0 := by
  ext r c
  simp [expandBeta]

theorem enumMap_length {α β : Type} (f : ℕ → α → β) (k : ℕ) (l : List α) :
    (enumMap f k l).length = l.length := by
  induction l generalizing k with
  | nil => rfl
  | cons a as ih => simp [enumMap, ih]

theorem exists_of_mem_enumMap {α β : Type} {f : ℕ → α → β} {k : ℕ} {l : List α} {b : β}
    (h : b ∈ enumMap f k l) : ∃ j a, a ∈ l ∧ b = f j a := by
  induction l generalizing k with
  | nil => simp [enumMap] at h
  | cons a as ih =>
    simp only [enumMap, List.mem_cons] at h
    rcases h with h | h
    · exact ⟨k, a, List.mem_cons_self a as, h⟩
    · obtain ⟨j, a2, ha2, hb⟩ := ih h
      exact ⟨j, a2, List.mem_cons_of_mem a ha2, hb⟩

theorem update_hypothesises_pixel_length (L : List ℚ) (hyps : List Hyp) :
    (update_hypothesises_pixel L hyps).length = hyps.length - 1 := by
  simp [update_hypothesises_pixel, List.length_dropLast, List.length_insertionSort,
    List.length_range]

/-- Unfolding of update_sigma when none of its inversions fail: g nonzero and
both K3's argument and sigma_p nonsingular give exactly the closed-form
specification formula. -/
theorem update_sigma_some (sigma_p : M33) (g : ℚ) (B : M63) (Sigma_o : M66) (mu_o : V6)
    (p : V3) (hg : g ≠ 0)
    (hM : det3 ((g ^ 2)⁻¹ • sigma_p + Bᵀ * Sigma_o * B) ≠ 0)
    (hsp : det3 sigma_p ≠ 0) :
    update_sigma sigma_p g B Sigma_o mu_o p = some (specUpdateSigma sigma_p g B Sigma_o mu_o p) := by
  have hg2 : g ^ 2 ≠ 0 := pow_ne_zero 2 hg
  simp [update_sigma, scalarDivMat, npInv3, hg2, hM, hsp, specUpdateSigma,
    Matrix.mulVec_mulVec]

/-! ## Claims C1, C5, C2 -/

/-- Claim C1: the Hypothesis Pruner is stated to remove, per pixel, exactly the
hypothesis of minimal combined log-likelihood. The code sorts the surviving
indices by ascending likelihood and keeps all but the last, so on likelihoods
[1, 2, 3] it keeps the hypotheses scored 1 and 2 and removes the hypothesis
with the maximal likelihood 3 - not the minimal one. -/
theorem c1_prune_removes_maximum :
    update_hypothesises_pixel [1, 2, 3] [cH0, cH1, cH2] = [cH0, cH1] := by
  decide

/-- Claim C5: rank 0 (INDEX_BEST_HYPOTHESIS) is stated to always hold the
highest-likelihood survivor. After one pruning pass on likelihoods [2, 3, 1]
the survivors are reordered ascending by likelihood: the result is
[cH2, cH0] (likelihoods 1 and 2), so index 0 holds the minimum-likelihood
survivor cH2 while the highest-likelihood hypothesis cH1 was deleted. -/
theorem c5_rank0_is_minimum :
    update_hypothesises_pixel [2, 3, 1] [cH0, cH1, cH2] = [cH2, cH0] := by
  decide

/-- Claim C2: if every pixel starts with N hypotheses, then after i iterations
of the convergence loop every pixel holds exactly N - i hypotheses, for any
refinement functions and any likelihood oracle; in particular all pixels agree
at every point and after the final iteration i = N - 1 exactly one remains. -/
theorem c2_hypothesis_count (f : ℕ → ℕ → ℕ → Hyp → Hyp)
    (calcL : ℕ → List (List Hyp) → List (List ℚ)) (st0 : List (List Hyp)) (N : ℕ)
    (h0 : ∀ p ∈ st0, p.length = N) (i : ℕ) :
    ∀ p ∈ convergence_loop f calcL st0 i, p.length = N - i := by
  induction i with
  | zero => simpa using h0
  | succ i ih =>
    intro p hp
    simp only [convergence_loop] at hp
    obtain ⟨j, a, ha, rfl⟩ := exists_of_mem_enumMap hp
    obtain ⟨j2, a2, ha2, rfl⟩ := exists_of_mem_enumMap ha
    have hl2 : (enumMap (fun hi h => f i j2 hi h) 0 a2).length = a2.length :=
      enumMap_length _ _ _
    rw [update_hypothesises_pixel_length, hl2, ih a2 ha2]
    omega

/-- Witness for C2 at a concrete state: two pixels with two hypotheses each;
after one iteration each pixel holds exactly one hypothesis. -/
theorem c2_hypothesis_count_witness :
    (∀ p ∈ cSt0, p.length = 2) ∧
      ∀ p ∈ convergence_loop cF cCalcL cSt0 1, p.length = 2 - 1 :=
  ⟨by decide, c2_hypothesis_count cF cCalcL cSt0 2 (by decide) 1⟩

theorem det2_eq (A : M22) : det2 A = A.det := by
  rw [Matrix.det_fin_two]
  rfl

theorem det2_one : det2 (1 : M22) = 1 := by
  rw [det2_eq, Matrix.det_one]

theorem det2_zero : det2 (0 : M22) = 0 := by
  rw [det2_eq, Matrix.det_zero ⟨0⟩]

theorem det3_one : det3 (1 : M33) = 1 := by
  rw [det3_eq, Matrix.det_one]

/-! ## Claims C3, C4, C8, C9, C10 -/

/-- Claim C3: every Gaussian term of calc_log_likelihoods is stated to follow
the log-density formula, with Σ = σ² for the univariate illumination term.
The code's log_N_singledim instead contributes -0.5·σ where the formula has
-0.5·ln σ², and 1/σ where the formula has 1/σ²; at (value, mu, std) = (0, 0, 1)
the code returns -0.5·ln(2π) - 0.5 while the formula gives -0.5·ln(2π). -/
theorem c3_singledim_term_diverges :
    log_N_singledim 0 0 1 ≠ some (specGaussLogPdf1 0 0 1) := by
  intro h
  rw [log_N_singledim, if_neg one_ne_zero] at h
  have h2 := Option.some.inj h
  rw [specGaussLogPdf1] at h2
  norm_num [Real.log_one] at h2

/-- Claim C4 counterexample: with zero supporting pixels the Spectrum
Estimator does not return the prior mean [1, 2]; the accumulated matrix is
0·Σ_β⁻¹ = 0, whose inversion fails, so the whole update fails. -/
theorem c4_counterexample : update_betas_w 1 cmu2 1 [] = none := by
  simp [update_betas_w, npInv2, det2_one, det2_zero]

/-- Claim C4 amended: for any invertible spectrum prior covariance, a light
source with zero supporting pixels accumulates h = 0 (the prior regularizer is
scaled by the vote count n = 0) and b = 0, so np.linalg.inv(h) fails and
update_betas fails instead of returning the prior mean. -/
theorem c4_zero_votes_fails (sigma_p : M33) (mu_beta : V2) (Sigma_beta : M22)
    (h : det2 Sigma_beta ≠ 0) :
    update_betas_w sigma_p mu_beta Sigma_beta [] = none := by
  simp [update_betas_w, npInv2, h, det2_zero]

/-- Witness for the amended C4 at a concrete invertible prior. -/
theorem c4_zero_votes_fails_witness :
    det2 (1 : M22) ≠ 0 ∧ update_betas_w 1 cmu2b 1 [] = none :=
  ⟨by simp [det2_one], c4_zero_votes_fails 1 cmu2b 1 (by simp [det2_one])⟩

/-- Claim C8 counterexample: with region (0, 4) × (0, 4), window size 2,
overlap 1 and a 10 × 10 image, the scheduler visits the window starting at
x = 4 (the region end, inclusive) and collects flattened index 5, whose
x-coordinate 5 % 10 = 5 lies beyond the region bound 4: boundary windows are
clipped to the image, not to the region. -/
theorem c8_counterexample :
    (4, 0, [4, 14, 5, 15]) ∈ scheduleWindows 0 4 0 4 2 2 1 10 10 ∧
      5 ∈ [4, 14, 5, 15] ∧ 4 < 5 % 10 := by
  decide

/-- Claim C8 amended: every visited window starts on the stride grid over
the region range (endpoints inclusive), and the pixels it collects span
exactly the window rectangle clipped to the image bounds - so they always lie
inside the image, but may lie outside the region of interest. -/
theorem c8_windows_within_image (rx0 rx1 ry0 ry1 wxs wys ov imgW imgH wx wy : ℕ)
    (pix : List ℕ)
    (hmem : (wx, wy, pix) ∈ scheduleWindows rx0 rx1 ry0 ry1 wxs wys ov imgW imgH) :
    (wx ∈ pyRange rx0 (rx1 + 1) (wxs - ov) ∧ wy ∈ pyRange ry0 (ry1 + 1) (wxs - ov) ∧
        pix = windowPixels wx wy wxs wys imgW imgH) ∧
      ∀ idx ∈ pix, ∃ px py, idx = py * imgW + px ∧
        wx ≤ px ∧ px < min (wx + wxs) imgW ∧ wy ≤ py ∧ py < min (wy + wys) imgH := by
  simp only [scheduleWindows, List.mem_flatMap, List.mem_map] at hmem
  obtain ⟨wx2, hwx2, wy2, hwy2, heq⟩ := hmem
  rw [Prod.mk.injEq, Prod.mk.injEq] at heq
  obtain ⟨rfl, rfl, rfl⟩ := heq
  refine ⟨⟨hwx2, hwy2, rfl⟩, ?_⟩
  intro idx hidx
  simp only [windowPixels, flatten_indizes, List.mem_flatMap, List.mem_map] at hidx
  obtain ⟨px, hpx, py, hpy, rfl⟩ := hidx
  rw [List.mem_range'_1] at hpx hpy
  exact ⟨px, py, rfl, by omega, by omega, by omega, by omega⟩

/-- Witness for the amended C8: the window starting at (0, 0) collects
[0, 10, 1, 11], and index 11 decodes to the in-image pixel (1, 1). -/
theorem c8_windows_within_image_witness :
    ((0, 0, [0, 10, 1, 11]) ∈ scheduleWindows 0 4 0 4 2 2 1 10 10) ∧
      ∃ px py, 11 = py * 10 + px ∧ 0 ≤ px ∧ px < min 2 10 ∧ 0 ≤ py ∧ py < min 2 10 :=
  ⟨by decide,
    (c8_windows_within_image 0 4 0 4 2 2 1 10 10 0 0 [0, 10, 1, 11] (by decide)).2 11
      (by decide)⟩

/-- Claim C9: update_sigma divides the observation covariance by g², so with
g = 0 the exact-arithmetic division is undefined and the function yields no
reflectance vector; and g = 0 is reachable, since init_pixel_hypothesises
seeds g from the dot product of the pixel color with the mean-chart color,
which vanishes for a black pixel. -/
theorem c9_black_pixel_gives_undefined_update :
    init_pixel_g (fun _ => 0) meanColorLeafDirect = 0 ∧
      ∀ (sigma_p : M33) (B : M63) (Sigma_o : M66) (mu_o : V6) (p : V3),
        update_sigma sigma_p 0 B Sigma_o mu_o p = none := by
  constructor
  · simp [init_pixel_g]
  · intro sigma_p B Sigma_o mu_o p
    norm_num [update_sigma, scalarDivMat]

/-- Claim C10: when all pixels voting for a light source carry the same
illumination value (in particular when exactly one pixel votes), the
estimated standard deviation is 0, and log_N_singledim divides by that zero
standard deviation, so the likelihood term is undefined. -/
theorem c10_zero_std_kills_likelihood (g : List ℝ) (w : List ℕ) (light_source : ℕ)
    (c : ℝ) (hne : votes_for w g light_source ≠ [])
    (hall : ∀ x ∈ votes_for w g light_source, x = c) :
    (estimate_g_distriution_for g w light_source).2 = 0 ∧
      ∀ value mu : ℝ,
        log_N_singledim value mu ((estimate_g_distriution_for g w light_source).2) = none := by
  have hlen : (votes_for w g light_source).length ≠ 0 := by
    simpa [List.length_eq_zero] using hne
  have hstd : list_std (votes_for w g light_source) = 0 := by
    have hrep := List.eq_replicate_of_mem hall
    have hmean : list_mean (votes_for w g light_source) = c := by
      rw [list_mean, hrep, List.sum_replicate, List.length_replicate, nsmul_eq_mul,
        mul_div_cancel_left₀]
      exact_mod_cast hlen
    rw [list_std, hmean]
    rw [hrep, List.map_replicate, List.sum_replicate]
    simp
  have hres : (estimate_g_distriution_for g w light_source).2 = 0 := by
    simp only [estimate_g_distriution_for, if_neg hlen]
    exact hstd
  refine ⟨hres, fun value mu => ?_⟩
  rw [hres]
  simp [log_N_singledim]

/-- Witness for C10: a single pixel with g = 5 voting for light source 0
yields standard deviation 0 and an undefined likelihood term. -/
theorem c10_zero_std_kills_likelihood_witness :
    votes_for [0] [(5 : ℝ)] 0 ≠ [] ∧
      (estimate_g_distriution_for [(5 : ℝ)] [0] 0).2 = 0 ∧
      log_N_singledim 7 3 ((estimate_g_distriution_for [(5 : ℝ)] [0] 0).2) = none := by
  refine ⟨by simp [votes_for], ?_, ?_⟩
  · exact (c10_zero_std_kills_likelihood [(5 : ℝ)] [0] 0 5 (by simp [votes_for])
      (by simp [votes_for])).1
  · exact (c10_zero_std_kills_likelihood [(5 : ℝ)] [0] 0 5 (by simp [votes_for])
      (by simp [votes_for])).2 7 3

/-- The closed-form Reflectance Estimator is a fixed point at its reflectance
argument mu_o when the pixel equals g • Bᵀ.mulVec mu_o: the Kalman-style
correction exactly cancels. -/
theorem specUpdateSigma_fixed_point (sigma_p : M33) (g : ℚ) (B : M63) (Sigma_o : M66)
    (mu_o : V6) (hg : g ≠ 0)
    (hM : det3 ((g ^ 2)⁻¹ • sigma_p + Bᵀ * Sigma_o * B) ≠ 0)
    (hsp : det3 sigma_p ≠ 0) :
    specUpdateSigma sigma_p g B Sigma_o mu_o (g • Bᵀ.mulVec mu_o) = mu_o := by
  have hg2 : g ^ 2 ≠ 0 := pow_ne_zero 2 hg
  simp only [specUpdateSigma]
  set A : M33 := Bᵀ * Sigma_o * B with hA
  set K3 : M33 := minv3 ((g ^ 2)⁻¹ • sigma_p + A) with hK3def
  have hK3 : K3 * ((g ^ 2)⁻¹ • sigma_p + A) = 1 := minv3_mul hM
  have hsp1 : sigma_p * minv3 sigma_p = 1 := mul_minv3 hsp
  have h1 : (g ^ 2)⁻¹ • (K3 * sigma_p) + K3 * A = 1 := by
    rw [← Matrix.mul_smul, ← Matrix.mul_add]
    exact hK3
  have h2 : (1 : M33) - K3 * A = (g ^ 2)⁻¹ • (K3 * sigma_p) := by
    rw [← h1]
    abel
  have key : g ^ 2 • (((1 : M33) - K3 * A) * minv3 sigma_p) = K3 := by
    rw [h2, Matrix.smul_mul, Matrix.mul_assoc, hsp1, Matrix.mul_one, smul_smul,
      mul_inv_cancel₀ hg2, one_smul]
  have hvec : (g • (Sigma_o * B * ((1 : M33) - K3 * A))).mulVec
      ((minv3 sigma_p).mulVec (g • Bᵀ.mulVec mu_o))
      = ((g ^ 2 • ((Sigma_o * B * ((1 : M33) - K3 * A)) * (minv3 sigma_p * Bᵀ)))).mulVec mu_o := by
    rw [Matrix.mulVec_smul, Matrix.mulVec_mulVec, Matrix.mulVec_smul, Matrix.mulVec_mulVec,
      Matrix.smul_mulVec_assoc, Matrix.smul_mul, Matrix.smul_mulVec_assoc, smul_smul,
      ← pow_two]
  have hmat : g ^ 2 • ((Sigma_o * B * ((1 : M33) - K3 * A)) * (minv3 sigma_p * Bᵀ))
      = Sigma_o * B * K3 * Bᵀ := by
    rw [Matrix.mul_assoc (Sigma_o * B), ← Matrix.mul_assoc ((1 : M33) - K3 * A),
      ← Matrix.mul_smul, ← Matrix.smul_mul, key, ← Matrix.mul_assoc]
  rw [hvec, hmat, ← Matrix.add_mulVec]
  rw [sub_add_cancel, Matrix.one_mulVec]

/-! ## Claims C6 and C7 -/

/-- Claim C6: for nonzero illumination g (and nonsingular Σ_p and
Σ_p/g² + BᵗΣ_oB, so that the inversions numpy performs succeed), update_sigma
with the block-expanded spectrum operator B returns exactly
K1·μ_o + K2·Σ_p⁻¹·p with K3 = (Σ_p/g² + BᵗΣ_oB)⁻¹, K2 = g·Σ_oB·(I − K3·BᵗΣ_oB)
and K1 = I − Σ_oB·K3·Bᵗ, as the specification states. -/
theorem c6_update_sigma_matches_spec (sigma_p : M33) (g : ℚ) (beta : V2) (Sigma_o : M66)
    (mu_o : V6) (p : V3) (hg : g ≠ 0)
    (hM : det3 ((g ^ 2)⁻¹ • sigma_p + (expandBeta beta)ᵀ * Sigma_o * expandBeta beta) ≠ 0)
    (hsp : det3 sigma_p ≠ 0) :
    update_sigma sigma_p g (expandBeta beta) Sigma_o mu_o p
      = some (specUpdateSigma sigma_p g (expandBeta beta) Sigma_o mu_o p) :=
  update_sigma_some _ _ _ _ _ _ hg hM hsp

/-- Witness for C6 at concrete nonsingular inputs. -/
theorem c6_update_sigma_matches_spec_witness :
    (1 : ℚ) ≠ 0 ∧
      update_sigma 1 1 (expandBeta 0) 1 0 0
        = some (specUpdateSigma 1 1 (expandBeta 0) 1 0 0) :=
  ⟨one_ne_zero,
    c6_update_sigma_matches_spec 1 1 0 1 0 0 one_ne_zero
      (by simp [expandBeta_zero, det3_one]) (by simp [det3_one])⟩

/-- Claim C7 amended: the Reflectance Estimator is a fixed point at its input
reflectance mu_o when the observed pixel equals g·Bᵗμ_o for the block-expanded
operator B built from the spectrum (reading the reflectance vector in
color-major blocks), not for the row-major reshape Sᵗβ used by the likelihood
code; under nonzero g and the nonsingularity numpy needs, update_sigma then
returns exactly mu_o. -/
theorem c7_fixed_point_blockwise (sigma_p : M33) (g : ℚ) (beta : V2) (Sigma_o : M66)
    (mu_o : V6) (hg : g ≠ 0)
    (hM : det3 ((g ^ 2)⁻¹ • sigma_p + (expandBeta beta)ᵀ * Sigma_o * expandBeta beta) ≠ 0)
    (hsp : det3 sigma_p ≠ 0) :
    update_sigma sigma_p g (expandBeta beta) Sigma_o mu_o
      (g • (expandBeta beta)ᵀ.mulVec mu_o) = some mu_o := by
  rw [update_sigma_some _ _ _ _ _ _ hg hM hsp]
  exact congrArg some (specUpdateSigma_fixed_point _ _ _ _ _ hg hM hsp)

/-- Witness for the amended C7 at concrete nonsingular inputs. -/
theorem c7_fixed_point_blockwise_witness :
    (1 : ℚ) ≠ 0 ∧
      update_sigma 1 1 (expandBeta 0) 1 ce1 ((1 : ℚ) • (expandBeta 0)ᵀ.mulVec ce1)
        = some ce1 :=
  ⟨one_ne_zero,
    c7_fixed_point_blockwise 1 1 0 1 ce1 one_ne_zero
      (by simp [expandBeta_zero, det3_one]) (by simp [det3_one])⟩

theorem expandBeta_cbeta_gram :
    (expandBeta cbeta)ᵀ * (1 : M66) * expandBeta cbeta = 1 := by
  rw [Matrix.mul_one]
  ext i j
  fin_cases i <;> fin_cases j <;>
    simp [expandBeta, cbeta, Matrix.mul_apply, Fin.sum_univ_six, Matrix.one_apply,
      show ((0 : Fin 6) : ℕ) = 0 from rfl, show ((1 : Fin 6) : ℕ) = 1 from rfl,
      show ((2 : Fin 6) : ℕ) = 2 from rfl, show ((3 : Fin 6) : ℕ) = 3 from rfl,
      show ((4 : Fin 6) : ℕ) = 4 from rfl, show ((5 : Fin 6) : ℕ) = 5 from rfl]

theorem expandBeta_cbeta_gram2 : (expandBeta cbeta)ᵀ * expandBeta cbeta = 1 := by
  have h := expandBeta_cbeta_gram
  rwa [Matrix.mul_one] at h

theorem one_add_one_eq_smul : (1 : M33) + 1 = (2 : ℚ) • 1 :=
  (two_smul ℚ (1 : M33)).symm

theorem det3_one_add_one : det3 ((1 : M33) + 1) = 8 := by
  rw [det3_eq, one_add_one_eq_smul, Matrix.det_smul, Matrix.det_one]
  norm_num [Fintype.card_fin]

theorem adj3_one_add_one : adj3 ((1 : M33) + 1) = (4 : ℚ) • 1 := by
  rw [adj3_eq, one_add_one_eq_smul, Matrix.adjugate_smul, Matrix.adjugate_one]
  norm_num [Fintype.card_fin]

theorem minv3_one_add_one : minv3 ((1 : M33) + 1) = (2⁻¹ : ℚ) • 1 := by
  rw [minv3, det3_one_add_one, adj3_one_add_one, smul_smul]
  norm_num

theorem minv3_one : minv3 (1 : M33) = 1 := by
  rw [minv3, det3_one, adj3_eq, Matrix.adjugate_one]
  norm_num

/-- Claim C7 counterexample: with σ_p = Σ_o = I, g = 1, β = (1, 0) and
reflectance estimate ce1 (a 1 in coordinate 1), the observed pixel (0, 1, 0)
equals g·Sᵗβ for the row-major reshape S of ce1 used everywhere else in the
notebook - yet update_sigma does not return ce1: its block operator reads the
reflectance in color-major blocks, so the correction does not cancel. -/
theorem c7_counterexample :
    cp010 = (1 : ℚ) • (reshapeS ce1)ᵀ.mulVec cbeta ∧
      update_sigma 1 1 (expandBeta cbeta) 1 ce1 cp010 ≠ some ce1 := by
  constructor
  · funext i
    fin_cases i <;>
      simp [cp010, reshapeS, ce1, cbeta, Matrix.mulVec, Matrix.dotProduct, Fin.sum_univ_two,
        show ((0 : Fin 2) : ℕ) = 0 from rfl, show ((1 : Fin 2) : ℕ) = 1 from rfl]
  · intro hEq
    have hM : det3 (((1 : ℚ) ^ 2)⁻¹ • (1 : M33)
        + (expandBeta cbeta)ᵀ * (1 : M66) * expandBeta cbeta) ≠ 0 := by
      rw [expandBeta_cbeta_gram]
      simp only [one_pow, inv_one, one_smul, det3_one_add_one]
      norm_num
    rw [update_sigma_some 1 1 (expandBeta cbeta) 1 ce1 cp010 one_ne_zero hM
      (by norm_num [det3_one])] at hEq
    have h2 := congrFun (Option.some.inj hEq) 2
    simp only [specUpdateSigma, one_pow, inv_one, one_smul, Matrix.one_mul, Matrix.mul_one,
      expandBeta_cbeta_gram2, minv3_one_add_one, minv3_one, Matrix.one_mulVec] at h2
    simp [Matrix.mulVec, Matrix.dotProduct, Fin.sum_univ_six, Fin.sum_univ_three,
      Matrix.sub_apply, Matrix.one_apply, Matrix.mul_apply, Matrix.smul_apply,
      expandBeta, cbeta, ce1, cp010,
      show ((0 : Fin 6) : ℕ) = 0 from rfl, show ((1 : Fin 6) : ℕ) = 1 from rfl,
      show ((2 : Fin 6) : ℕ) = 2 from rfl, show ((3 : Fin 6) : ℕ) = 3 from rfl,
      show ((4 : Fin 6) : ℕ) = 4 from rfl, show ((5 : Fin 6) : ℕ) = 5 from rfl] at h2
    norm_num at h2
